import Mathlib

/-!
Verification of the report-forge consolidation pipeline
(`src-tauri/src/processors/excel_processor.rs` and
`src-tauri/src/models/mod.rs`).

Rust strings are modelled as lists of characters (`Str`); the string
operations the pipeline uses (`trim`, `contains`, `split('|')`,
`join("|")`) are defined below with the semantics of their Rust
counterparts.  Rust's `HashMap` appears twice: as the per-row record
(observed only through `get`, modelled as an association list with
insert-replaces semantics) and as the grouping accumulator (whose
iteration order in `create_structured_result` is unspecified and varies
between runs; it is modelled by passing the list of key/group pairs —
a permutation of the insertion-ordered content — explicitly).
-/

/-- Rust `&str` / `String`, modelled as its sequence of characters. -/
abbrev Str := List Char

/-- Rust `str::trim`: drop whitespace from both ends. -/
def strTrim (s : Str) : Str :=
  ((s.dropWhile Char.isWhitespace).reverse.dropWhile Char.isWhitespace).reverse

/-- Whether `s` starts with `pat` (helper for substring containment). -/
def matchAt : Str → Str → Bool
  | [], _ => true
  | _ :: _, [] => false
  | p :: ps, c :: cs => p = c && matchAt ps cs

/-- Rust `str::contains(pat)`: `pat` occurs as a contiguous substring of `s`. -/
def containsStr (s pat : Str) : Bool :=
  match s with
  | [] => matchAt pat []
  | c :: rest => matchAt pat (c :: rest) || containsStr rest pat

/-- Rust `str::split(sep).collect::<Vec<_>>()` for a character separator. -/
def splitChar (sep : Char) : Str → List Str
  | [] => [[]]
  | c :: rest =>
    if c = sep then [] :: splitChar sep rest
    else
      match splitChar sep rest with
      | s :: ss => (c :: s) :: ss
      | [] => [[c]]

/-- Rust `[&str]::join(sep)` for a single-character separator. -/
def joinSep (sep : Char) : List Str → Str
  | [] => []
  | [s] => s
  | s :: rest => s ++ sep :: joinSep sep rest

/-- `RiskLevel` from `models/mod.rs`. -/
inductive RiskLevel where
  | High
  | Medium
  | Low
  | Unknown
  deriving DecidableEq, Repr

/-- `RiskLevel::from_severity` (models/mod.rs:15-25): substring match against
the High keywords, then Medium, then Low; no match yields `Unknown`. -/
def RiskLevel.from_severity (severity : Str) : RiskLevel :=
  if containsStr severity ("高危".toList) || containsStr severity ("高".toList) then
    .High
  else if containsStr severity ("中危".toList) || containsStr severity ("中".toList) then
    .Medium
  else if containsStr severity ("低危".toList) || containsStr severity ("低".toList) then
    .Low
  else
    .Unknown

/-- `RiskLevel::priority` (models/mod.rs:28-35). -/
def RiskLevel.priority : RiskLevel → Int
  | .High => 1
  | .Medium => 2
  | .Low => 3
  | .Unknown => 999

/-- `RiskLevel::text` (models/mod.rs:38-45). -/
def RiskLevel.text : RiskLevel → Str
  | .High => "☑ 高危风险  ☐ 中危风险  ☐ 低危风险".toList
  | .Medium => "☐ 高危风险  ☑ 中危风险  ☐ 低危风险".toList
  | .Low => "☐ 高危风险  ☐ 中危风险  ☑ 低危风险".toList
  | .Unknown => "☐ 高危风险  ☐ 中危风险  ☐ 低危风险".toList

/-- `RiskInfo` from `models/mod.rs`. -/
structure RiskInfo where
  level : RiskLevel
  text : Str
  priority : Int
  deriving DecidableEq, Repr

/-- `RiskInfo::from_severity` (models/mod.rs:57-67). -/
def RiskInfo.from_severity (severity : Str) : RiskInfo :=
  let level := RiskLevel.from_severity severity
  { level := level, text := level.text, priority := level.priority }

/-- A row record: `HashMap<String, Option<String>>` observed only through
`get`, modelled as an association list whose keys are unique because
insertion replaces an existing binding. -/
abbrev Record := List (Str × Option Str)

/-- `HashMap::get` (value of the binding for `k`, if any). -/
def recGet (r : Record) (k : Str) : Option (Option Str) :=
  (r.find? (fun p => decide (p.1 = k))).map (·.2)

/-- `HashMap::insert`: replace the binding for `k` if present, else append. -/
def recInsert (r : Record) (k : Str) (v : Option Str) : Record :=
  if r.any (fun p => decide (p.1 = k)) then
    r.map (fun p => if p.1 = k then (k, v) else p)
  else
    r ++ [(k, v)]

/-- `record.get(col).and_then(|v| v.as_ref()).map(|s| s.as_str()).unwrap_or("")`
— the cell text used by deduplication and grouping (absent maps to `""`). -/
def getCell (r : Record) (k : Str) : Str :=
  match recGet r k with
  | some (some s) => s
  | _ => []

/-- `ExcelRecord` (models/mod.rs:85-87): a wrapper around the row map. -/
structure ExcelRecord where
  data : Record
  deriving DecidableEq, Repr

/-- `GroupInfo` (models/mod.rs:91-96). -/
structure GroupInfo where
  b_column : Str
  d_column : Str
  record_count : Nat
  records : List ExcelRecord
  deriving DecidableEq, Repr

/-- `ExcelProcessResult` (models/mod.rs:100-104). -/
structure ExcelProcessResult where
  total_groups : Nat
  total_records : Nat
  grouped_data : List (Str × GroupInfo)
  deriving DecidableEq, Repr

/-- `RawExcelData` (excel_processor.rs:11-14). -/
structure RawExcelData where
  headers : List Str
  rows : List (List Str)
  deriving DecidableEq, Repr

/-- The column name for 0-based index `i` (excel_processor.rs:140):
`(b'A' + i as u8) as char`, with release-mode wrapping arithmetic on `u8`. -/
def colName (i : Nat) : Str :=
  [Char.ofNat ((65 + i % 256) % 256)]

/-- The synthetic column names `A`, `B`, … for a batch of `n` columns
(excel_processor.rs:139-141). -/
def columnNames (n : Nat) : List Str :=
  (List.range n).map colName

/-- The trimmed-cell value stored by the normalizer: `None` when the cell is
empty after trimming (excel_processor.rs:153-161). -/
def cleanCell (v : Str) : Option Str :=
  let cleaned := strTrim v
  if cleaned = [] then none else some cleaned

/-- One iteration of the normalizer's row loop (excel_processor.rs:148-165):
insert the cleaned value of each cell whose index is below the number of
column names; `names.zip row` pairs exactly those cells with their names. -/
def buildRecord (names : List Str) (row : List Str) : Record :=
  (names.zip row).foldl (fun rec p => recInsert rec p.1 (cleanCell p.2)) []

/-- The batch column count (excel_processor.rs:134-138): the length of the
first row, `0` when there are no rows. -/
def batchColumnCount (rows : List (List Str)) : Nat :=
  (rows.headD []).length

/-- The record normalizer (excel_processor.rs:139-165): one record per row. -/
def normalizeRecords (rows : List (List Str)) : List Record :=
  rows.map (buildRecord (columnNames (batchColumnCount rows)))

/-- The composite deduplication key (excel_processor.rs:209-219): the values
of the check columns, absent mapped to the empty string, joined with `|`. -/
def dedupKey (check_columns : List Str) (r : Record) : Str :=
  joinSep '|' (check_columns.map (getCell r))

/-- The loop of `ExcelProcessor::deduplicate_records`, with the `HashSet` of
seen keys made explicit: keep a record iff its key was not seen before. -/
def dedupAux (check_columns : List Str) : List Record → List Str → List Record
  | [], _ => []
  | r :: rest, seen =>
    if dedupKey check_columns r ∈ seen then dedupAux check_columns rest seen
    else r :: dedupAux check_columns rest (dedupKey check_columns r :: seen)

/-- `ExcelProcessor::deduplicate_records` (excel_processor.rs:200-227). -/
def deduplicate_records (records : List Record) (check_columns : List Str) : List Record :=
  dedupAux check_columns records []

/-- The grouping key of a record (excel_processor.rs:238-250):
`format!("{}|{}", key_b, key_d)` on the two designated cells. -/
def groupKeyOf (col_b col_d : Str) (r : Record) : Str :=
  getCell r col_b ++ '|' :: getCell r col_d

/-- `grouped.entry(key).or_insert_with(Vec::new).push(record)`: append the
record to its group, creating the group at the end on first encounter.
The resulting list is the map's content in first-encounter key order. -/
def insertGroup : List (Str × List Record) → Str → Record → List (Str × List Record)
  | [], k, r => [(k, [r])]
  | (k₀, rs) :: rest, k, r =>
    if k₀ = k then (k₀, rs ++ [r]) :: rest
    else (k₀, rs) :: insertGroup rest k r

/-- `ExcelProcessor::group_data_by_columns` (excel_processor.rs:230-259),
returning the `HashMap`'s content listed in first-encounter key order.
(The order in which `create_structured_result` later iterates the map is
unspecified; theorems below quantify over permutations of this list.) -/
def group_data_by_columns (records : List Record) (col_b col_d : Str) :
    List (Str × List Record) :=
  records.foldl (fun acc r => insertGroup acc (groupKeyOf col_b col_d r) r) []

/-- Rust `i32::cmp` (used on priorities by the sort comparator). -/
def intCmp (a b : Int) : Ordering :=
  if a < b then .lt else if a = b then .eq else .gt

/-- Rust `usize::cmp` (used on record counts by the sort comparator). -/
def natCmp (a b : Nat) : Ordering :=
  if a < b then .lt else if a = b then .eq else .gt

/-- The comparator passed to `sort_by` (excel_processor.rs:290-295):
priority ascending, ties broken by record count descending. -/
def cmpGroups (a b : Str × GroupInfo × Int) : Ordering :=
  match intCmp a.2.2 b.2.2 with
  | .eq => natCmp b.2.1.record_count a.2.1.record_count
  | o => o

/-- Insert into a sorted list, before the first element not strictly below
`x`; folding this from the right is a stable sort, the behaviour Rust
documents for `slice::sort_by`. -/
def insertOrd (cmp : α → α → Ordering) (x : α) : List α → List α
  | [] => [x]
  | y :: ys => if cmp y x = .lt then y :: insertOrd cmp x ys else x :: y :: ys

/-- Stable sort by a comparator (Rust `slice::sort_by`). -/
def sortByOrd (cmp : α → α → Ordering) (l : List α) : List α :=
  l.foldr (insertOrd cmp) []

/-- The per-group step of `create_structured_result`
(excel_processor.rs:269-287): split the composite key on `|`, classify the
severity part, and build the `GroupInfo` with its transient priority. -/
def structureGroup (p : Str × List Record) : Str × GroupInfo × Int :=
  let parts := splitChar '|' p.1
  let b_value := parts.getD 0 []
  let d_value := parts.getD 1 []
  let risk_info := RiskInfo.from_severity d_value
  (p.1,
   { b_column := b_value
     d_column := d_value
     record_count := p.2.length
     records := p.2.map (fun data => { data := data }) },
   risk_info.priority)

/-- `ExcelProcessor::create_structured_result` (excel_processor.rs:262-308).
Its Rust input is a `HashMap`; the `grouped_data` argument here is that
map's key/group pairs in the (unspecified) order the `for` loop visits
them. -/
def create_structured_result (grouped_data : List (Str × List Record))
    (total_records : Nat) : ExcelProcessResult :=
  let grouped_structured := grouped_data.map structureGroup
  let sorted := sortByOrd cmpGroups grouped_structured
  let final := sorted.map (fun t => (t.1, t.2.1))
  { total_groups := final.length
    total_records := total_records
    grouped_data := final }

/-- The deduplication key columns picked by `process_raw_data`
(excel_processor.rs:171): `&column_names[..7.min(column_names.len())]`. -/
def dedupColumns (rows : List (List Str)) : List Str :=
  (columnNames (batchColumnCount rows)).take (min 7 (columnNames (batchColumnCount rows)).length)

/-- The records surviving deduplication inside `process_raw_data`
(excel_processor.rs:146-174). -/
def dedupedRecords (rows : List (List Str)) : List Record :=
  deduplicate_records (normalizeRecords rows) (dedupColumns rows)

/-- The grouping map built by `process_raw_data` (excel_processor.rs:177),
in first-encounter key order. -/
def groupPairsOf (rows : List (List Str)) : List (Str × List Record) :=
  group_data_by_columns (dedupedRecords rows) ("B".toList) ("D".toList)

/-- `ExcelProcessor::process_raw_data` (excel_processor.rs:128-189) on the
merged rows.  `iter` is the order in which `create_structured_result`'s
`for` loop visits the grouping `HashMap`: any permutation of
`groupPairsOf rows`; Rust's run-randomized hash seeds make this order
change from run to run. -/
def process_raw_data (rows : List (List Str)) (iter : List (Str × List Record)) :
    ExcelProcessResult :=
  create_structured_result iter (dedupedRecords rows).length

/-- The failures of `read_excel_raw` that depend on the sheet's content
(excel_processor.rs:49-55); the purely I/O failures (unopenable file, no
worksheet) are outside the model. -/
inductive ReadError where
  | emptyFile
  | headerOnly
  deriving DecidableEq, Repr

/-- The failures of `merge_excel_files` (excel_processor.rs:70-117).
Sources are identified by their 0-based position in the input list (the
Rust messages print the file path / 1-based file number instead).
`countMismatch` carries the offending source and the two header counts;
`headerMismatch` carries the offending source, the 1-based column index
`i + 1`, and the two conflicting header values. -/
inductive MergeError where
  | noFiles
  | readError (e : ReadError)
  | countMismatch (source : Nat) (current reference : Nat)
  | headerMismatch (source : Nat) (column : Nat) (current reference : Str)
  deriving DecidableEq, Repr

instance : DecidableEq (Except MergeError RawExcelData) := fun a b =>
  match a, b with
  | .error e₁, .error e₂ =>
    if h : e₁ = e₂ then isTrue (by rw [h]) else isFalse (fun hc => h (by injection hc))
  | .error _, .ok _ => isFalse (fun hc => Except.noConfusion hc)
  | .ok _, .error _ => isFalse (fun hc => Except.noConfusion hc)
  | .ok a₁, .ok a₂ =>
    if h : a₁ = a₂ then isTrue (by rw [h]) else isFalse (fun hc => h (by injection hc))

/-- The content-dependent part of `ExcelProcessor::read_excel_raw`
(excel_processor.rs:49-66): a source is its sheet's rows; empty sheets and
header-only sheets are rejected, otherwise the first row is the header and
the rest are the data rows. -/
def read_excel_raw (source : List (List Str)) : Except ReadError RawExcelData :=
  if source.isEmpty then .error .emptyFile
  else if source.length ≤ 1 then .error .headerOnly
  else .ok { headers := source.headD [], rows := source.tail }

/-- The header-comparison loop of `merge_excel_files`
(excel_processor.rs:99-112): first index (0-based) at which the trimmed
headers differ, with the two untrimmed values, walking the zipped lists. -/
def firstHeaderDiff : List Str → List Str → Nat → Option (Nat × Str × Str)
  | c :: cs, r :: rs, i =>
    if strTrim c ≠ strTrim r then some (i, c, r) else firstHeaderDiff cs rs (i + 1)
  | _, _, _ => none

/-- The merge loop over the sources after the first
(excel_processor.rs:85-117): read each source, compare its headers with the
reference, and append its rows. -/
def mergeAux (reference_headers : List Str) :
    List (List (List Str)) → Nat → List (List Str) →
    Except MergeError (List (List Str))
  | [], _, acc => .ok acc
  | f :: fs, idx, acc =>
    match read_excel_raw f with
    | .error e => .error (.readError e)
    | .ok current =>
      if current.headers.length ≠ reference_headers.length then
        .error (.countMismatch idx current.headers.length reference_headers.length)
      else
        match firstHeaderDiff current.headers reference_headers 0 with
        | some (i, c, r) => .error (.headerMismatch idx (i + 1) c r)
        | none => mergeAux reference_headers fs (idx + 1) (acc ++ current.rows)

/-- `ExcelProcessor::merge_excel_files` (excel_processor.rs:70-125): reject
an empty source list, read the first source as the reference, then merge
the remaining sources in order. -/
def merge_excel_files (excel_files : List (List (List Str))) :
    Except MergeError RawExcelData :=
  match excel_files with
  | [] => .error .noFiles
  | f :: fs =>
    match read_excel_raw f with
    | .error e => .error (.readError e)
    | .ok first_data =>
      match mergeAux first_data.headers fs 1 first_data.rows with
      | .error e => .error e
      | .ok merged_rows => .ok { headers := first_data.headers, rows := merged_rows }

/-!
Specification-side definitions, written from the spec's wording, used to
state the claims about the source-derived definitions above.
-/

/-- Keep the first element for each distinct key, dropping all later
elements that share an already-seen key (the spec's description of the
deduplicator). -/
def keepFirstByKey [DecidableEq β] (key : α → β) : List α → List α
  | [] => []
  | x :: xs => x :: keepFirstByKey key (xs.filter (fun y => decide (key y ≠ key x)))
termination_by l => l.length
decreasing_by exact Nat.lt_succ_of_le (List.length_filter_le _ _)

/-- The priority a group key sorts by: classify the severity part of the
key (the segment after the first `|`). -/
def keyPriority (k : Str) : Int :=
  (RiskInfo.from_severity ((splitChar '|' k).getD 1 [])).priority

/-- The spec's group ordering: severity priority ascending, ties broken by
record count descending. -/
def orderedBefore (a b : Str × GroupInfo) : Prop :=
  keyPriority a.1 < keyPriority b.1 ∨
    (keyPriority a.1 = keyPriority b.1 ∧ b.2.record_count ≤ a.2.record_count)

/-- The spec's header-consistency violation between the reference header
row and another source's header row: different column count, or different
text (after trimming) at some shared column. -/
def headersMismatch (reference current : List Str) : Prop :=
  current.length ≠ reference.length ∨
    ∃ i < reference.length, i < current.length ∧
      strTrim (current.getD i []) ≠ strTrim (reference.getD i [])

instance : ∀ r c, Decidable (headersMismatch r c) := fun _ _ => by
  unfold headersMismatch; infer_instance

/-- Whether a merge attempt failed. -/
def isErr : Except MergeError RawExcelData → Bool
  | .error _ => true
  | .ok _ => false

/-- Whether a merge outcome is a header-content error, the only error kind
that carries a column index and the two conflicting header values. -/
def errCarriesColumnDetail : Except MergeError RawExcelData → Bool
  | .error (.headerMismatch _ _ _ _) => true
  | _ => false

/-- The High keyword set of the severity classifier. -/
def highKeywords : List Str := ["高危".toList, "高".toList]

/-- The Medium keyword set of the severity classifier. -/
def mediumKeywords : List Str := ["中危".toList, "中".toList]

/-- The Low keyword set of the severity classifier. -/
def lowKeywords : List Str := ["低危".toList, "低".toList]

/-- Two rows producing two groups that tie on `(priority, record_count)`:
both severity cells classify High and each group holds one record. -/
def rowsTied : List (List Str) :=
  [["h1".toList, "p".toList, "c".toList, "高".toList],
   ["h2".toList, "q".toList, "c".toList, "高".toList]]

/-- A record whose problem cell is pipe-free but whose severity cell
contains a pipe character. -/
def recPipeD : Record :=
  [(("B".toList : Str), some ("x".toList)), (("D".toList : Str), some ("a|b".toList))]

/-- A record whose problem and severity cells are both pipe-free. -/
def recBD : Record :=
  [(("B".toList : Str), some ("x".toList)), (("D".toList : Str), some ("高".toList))]

/-- The single group produced by grouping `[recBD]` on columns B and D. -/
def groupBD : Str × GroupInfo :=
  (("x|高".toList),
   { b_column := ("x".toList)
     d_column := ("高".toList)
     record_count := 1
     records := [{ data := recBD }] })

/-!
General lemmas about the stable sort, the comparator, the grouping
accumulator and the deduplicator.
-/

theorem insertOrd_perm (cmp : α → α → Ordering) (x : α) :
    ∀ l : List α, (insertOrd cmp x l).Perm (x :: l)
  | [] => List.Perm.refl _
  | y :: ys => by
    unfold insertOrd
    by_cases h : cmp y x = .lt
    · simp only [h, if_pos]
      exact ((insertOrd_perm cmp x ys).cons y).trans (List.Perm.swap x y ys)
    · simp only [h, if_neg, not_false_iff]
      exact List.Perm.refl _

theorem sortByOrd_perm (cmp : α → α → Ordering) :
    ∀ l : List α, (sortByOrd cmp l).Perm l
  | [] => List.Perm.refl _
  | x :: xs =>
    (insertOrd_perm cmp x (sortByOrd cmp xs)).trans ((sortByOrd_perm cmp xs).cons x)

theorem mem_insertOrd {cmp : α → α → Ordering} {x z : α} {l : List α}
    (h : z ∈ insertOrd cmp x l) : z = x ∨ z ∈ l := by
  have := (insertOrd_perm cmp x l).mem_iff.mp h
  simpa using this

theorem pairwise_insertOrd {cmp : α → α → Ordering}
    (hswap : ∀ a b, cmp a b = .gt → cmp b a = .lt)
    (htrans : ∀ a b c, cmp a b ≠ .gt → cmp b c ≠ .gt → cmp a c ≠ .gt)
    (x : α) : ∀ l : List α, l.Pairwise (fun a b => cmp a b ≠ .gt) →
    (insertOrd cmp x l).Pairwise (fun a b => cmp a b ≠ .gt)
  | [], _ => List.pairwise_singleton _ x
  | y :: ys, hl => by
    unfold insertOrd
    rcases List.pairwise_cons.mp hl with ⟨hy, hys⟩
    by_cases h : cmp y x = .lt
    · simp only [h, if_pos]
      refine List.pairwise_cons.mpr ⟨?_, pairwise_insertOrd hswap htrans x ys hys⟩
      intro z hz
      rcases mem_insertOrd hz with rfl | hz'
      · simp [h]
      · exact hy z hz'
    · simp only [h, if_neg, not_false_iff]
      have hxy : cmp x y ≠ .gt := fun hc => h (hswap x y hc)
      refine List.pairwise_cons.mpr ⟨?_, hl⟩
      intro z hz
      rcases List.mem_cons.mp hz with rfl | hz'
      · exact hxy
      · exact htrans x y z hxy (hy z hz')

theorem pairwise_sortByOrd {cmp : α → α → Ordering}
    (hswap : ∀ a b, cmp a b = .gt → cmp b a = .lt)
    (htrans : ∀ a b c, cmp a b ≠ .gt → cmp b c ≠ .gt → cmp a c ≠ .gt) :
    ∀ l : List α, (sortByOrd cmp l).Pairwise (fun a b => cmp a b ≠ .gt)
  | [] => List.Pairwise.nil
  | x :: xs => pairwise_insertOrd hswap htrans x _ (pairwise_sortByOrd hswap htrans xs)

theorem intCmp_eq_lt {a b : Int} : intCmp a b = .lt ↔ a < b := by
  unfold intCmp; split_ifs with h1 h2 <;> simp_all

theorem intCmp_eq_gt {a b : Int} : intCmp a b = .gt ↔ b < a := by
  unfold intCmp; split_ifs with h1 h2 <;> simp_all <;> omega

theorem natCmp_eq_lt {a b : Nat} : natCmp a b = .lt ↔ a < b := by
  unfold natCmp; split_ifs with h1 h2 <;> simp_all

theorem natCmp_eq_gt {a b : Nat} : natCmp a b = .gt ↔ b < a := by
  unfold natCmp; split_ifs with h1 h2 <;> simp_all <;> omega

theorem cmpGroups_eq_gt {a b : Str × GroupInfo × Int} :
    cmpGroups a b = .gt ↔
      (b.2.2 < a.2.2 ∨ (a.2.2 = b.2.2 ∧ a.2.1.record_count < b.2.1.record_count)) := by
  unfold cmpGroups
  rcases h : intCmp a.2.2 b.2.2 with _ | _ | _
  · have := intCmp_eq_lt.mp h
    simp only [intCmp_eq_gt] at *
    constructor
    · intro hc; exact absurd hc (by simp)
    · intro hc; omega
  · have hab : a.2.2 = b.2.2 := by
      by_contra hne
      rcases lt_or_gt_of_ne hne with hlt | hgt
      · rw [intCmp_eq_lt.mpr hlt] at h; exact absurd h (by simp)
      · rw [intCmp_eq_gt.mpr hgt] at h; exact absurd h (by simp)
    rw [natCmp_eq_gt]
    omega
  · have := intCmp_eq_gt.mp h
    constructor
    · intro _; exact Or.inl this
    · intro _; rfl

theorem cmpGroups_swap (a b : Str × GroupInfo × Int) (h : cmpGroups a b = .gt) :
    cmpGroups b a = .lt := by
  rcases cmpGroups_eq_gt.mp h with h1 | ⟨h1, h2⟩
  · unfold cmpGroups
    rw [intCmp_eq_lt.mpr h1]
  · unfold cmpGroups
    have : intCmp b.2.2 a.2.2 = .eq := by
      unfold intCmp; simp [h1, Int.lt_irrefl]
    rw [this, natCmp_eq_lt]
    omega

theorem cmpGroups_trans_le (a b c : Str × GroupInfo × Int)
    (hab : cmpGroups a b ≠ .gt) (hbc : cmpGroups b c ≠ .gt) : cmpGroups a c ≠ .gt := by
  rw [Ne, cmpGroups_eq_gt] at *
  push_neg at *
  constructor
  · omega
  · intro h; omega

theorem sum_insertGroup (k : Str) (r : Record) :
    ∀ acc : List (Str × List Record),
    ((insertGroup acc k r).map (fun p => p.2.length)).sum
      = (acc.map (fun p => p.2.length)).sum + 1
  | [] => by simp [insertGroup]
  | (k₀, rs) :: rest => by
    unfold insertGroup
    by_cases h : k₀ = k
    · simp only [h, if_pos, List.map_cons, List.sum_cons, List.length_append,
        List.length_cons, List.length_nil]
      omega
    · simp only [h, if_neg, not_false_iff, List.map_cons, List.sum_cons,
        sum_insertGroup k r rest]
      omega

theorem sum_group_foldl (col_b col_d : Str) :
    ∀ (recs : List Record) (acc : List (Str × List Record)),
    ((recs.foldl (fun a r => insertGroup a (groupKeyOf col_b col_d r) r) acc).map
        (fun p => p.2.length)).sum
      = (acc.map (fun p => p.2.length)).sum + recs.length
  | [], acc => by simp
  | r :: rest, acc => by
    simp only [List.foldl_cons, List.length_cons]
    rw [sum_group_foldl col_b col_d rest, sum_insertGroup]
    omega

theorem sum_group_data (recs : List Record) (col_b col_d : Str) :
    ((group_data_by_columns recs col_b col_d).map (fun p => p.2.length)).sum
      = recs.length := by
  unfold group_data_by_columns
  rw [sum_group_foldl]
  simp

theorem insertGroup_mem :
    ∀ (acc : List (Str × List Record)) (k : Str) (r : Record),
    ∀ p ∈ insertGroup acc k r, ∀ x ∈ p.2,
      (p.1 = k ∧ x = r) ∨ ∃ q ∈ acc, p.1 = q.1 ∧ x ∈ q.2
  | [], k, r => by
    intro p hp x hx
    simp only [insertGroup, List.mem_singleton] at hp
    subst hp
    simp only [List.mem_singleton] at hx
    exact Or.inl ⟨rfl, hx⟩
  | (k₀, rs) :: rest, k, r => by
    intro p hp x hx
    unfold insertGroup at hp
    by_cases h : k₀ = k
    · rw [if_pos h] at hp
      rcases List.mem_cons.mp hp with rfl | hp
      · rcases List.mem_append.mp hx with hx' | hx'
        · exact Or.inr ⟨(k₀, rs), List.mem_cons_self _ _, rfl, hx'⟩
        · rcases List.mem_singleton.mp hx' with rfl
          exact Or.inl ⟨h, rfl⟩
      · exact Or.inr ⟨p, List.mem_cons_of_mem _ hp, rfl, hx⟩
    · rw [if_neg h] at hp
      rcases List.mem_cons.mp hp with rfl | hp
      · exact Or.inr ⟨(k₀, rs), List.mem_cons_self _ _, rfl, hx⟩
      · rcases insertGroup_mem rest k r p hp x hx with hl | ⟨q, hq, hpq, hxq⟩
        · exact Or.inl hl
        · exact Or.inr ⟨q, List.mem_cons_of_mem _ hq, hpq, hxq⟩

theorem group_foldl_inv (col_b col_d : Str) :
    ∀ (recs : List Record) (acc : List (Str × List Record)),
    (∀ p ∈ acc, ∀ x ∈ p.2, p.1 = groupKeyOf col_b col_d x) →
    ∀ p ∈ recs.foldl (fun a r => insertGroup a (groupKeyOf col_b col_d r) r) acc,
      ∀ x ∈ p.2, p.1 = groupKeyOf col_b col_d x ∧ (x ∈ recs ∨ ∃ q ∈ acc, x ∈ q.2)
  | [], acc, hacc => fun p hp x hx => ⟨hacc p hp x hx, Or.inr ⟨p, hp, hx⟩⟩
  | r :: rest, acc, hacc => by
    intro p hp x hx
    simp only [List.foldl_cons] at hp
    have hacc' : ∀ p' ∈ insertGroup acc (groupKeyOf col_b col_d r) r,
        ∀ x' ∈ p'.2, p'.1 = groupKeyOf col_b col_d x' := by
      intro p' hp' x' hx'
      rcases insertGroup_mem acc _ r p' hp' x' hx' with ⟨hk, rfl⟩ | ⟨q, hq, hkq, hxq⟩
      · exact hk
      · rw [hkq]; exact hacc q hq x' hxq
    rcases group_foldl_inv col_b col_d rest _ hacc' p hp x hx with ⟨hkey, hmem⟩
    refine ⟨hkey, ?_⟩
    rcases hmem with hrest | ⟨q, hq, hxq⟩
    · exact Or.inl (List.mem_cons_of_mem r hrest)
    · rcases insertGroup_mem acc _ r q hq x hxq with ⟨_, rfl⟩ | ⟨q', hq', _, hxq'⟩
      · exact Or.inl (List.mem_cons_self _ _)
      · exact Or.inr ⟨q', hq', hxq'⟩

theorem group_data_inv (recs : List Record) (col_b col_d : Str) :
    ∀ p ∈ group_data_by_columns recs col_b col_d, ∀ x ∈ p.2,
      p.1 = groupKeyOf col_b col_d x ∧ x ∈ recs := by
  intro p hp x hx
  have h := group_foldl_inv col_b col_d recs [] (by simp) p hp x hx
  simpa using h

theorem dedupAux_sublist (cols : List Str) :
    ∀ (l : List Record) (seen : List Str), List.Sublist (dedupAux cols l seen) l
  | [], _ => List.nil_sublist _
  | r :: rest, seen => by
    unfold dedupAux
    by_cases h : dedupKey cols r ∈ seen
    · rw [if_pos h]
      exact (dedupAux_sublist cols rest seen).cons r
    · rw [if_neg h]
      exact (dedupAux_sublist cols rest _).cons₂ r

theorem dedupAux_eq_keepFirst (cols : List Str) :
    ∀ (l : List Record) (seen : List Str),
    dedupAux cols l seen
      = keepFirstByKey (dedupKey cols)
          (l.filter (fun r => decide (dedupKey cols r ∉ seen)))
  | [], seen => by simp [dedupAux, keepFirstByKey]
  | r :: rest, seen => by
    unfold dedupAux
    by_cases h : dedupKey cols r ∈ seen
    · rw [if_pos h]
      have hfil : (r :: rest).filter (fun y => decide (dedupKey cols y ∉ seen))
          = rest.filter (fun y => decide (dedupKey cols y ∉ seen)) := by
        simp [List.filter_cons, h]
      rw [hfil]
      exact dedupAux_eq_keepFirst cols rest seen
    · rw [if_neg h]
      have hfil : (r :: rest).filter (fun y => decide (dedupKey cols y ∉ seen))
          = r :: rest.filter (fun y => decide (dedupKey cols y ∉ seen)) := by
        simp [List.filter_cons, h]
      rw [hfil, keepFirstByKey]
      congr 1
      rw [List.filter_filter]
      rw [dedupAux_eq_keepFirst cols rest (dedupKey cols r :: seen)]
      congr 1
      apply List.filter_congr
      intro y _
      by_cases h1 : dedupKey cols y = dedupKey cols r <;>
        by_cases h2 : dedupKey cols y ∈ seen <;> simp [h1, h2]

theorem deduplicate_eq_keepFirst (records : List Record) (cols : List Str) :
    deduplicate_records records cols = keepFirstByKey (dedupKey cols) records := by
  unfold deduplicate_records
  rw [dedupAux_eq_keepFirst]
  congr 1
  apply List.filter_eq_self.mpr
  intro a _
  simp

theorem keepFirstByKey_sublist [DecidableEq β] (key : α → β) :
    ∀ l : List α, List.Sublist (keepFirstByKey key l) l
  | [] => by simp [keepFirstByKey]
  | x :: xs => by
    rw [keepFirstByKey]
    exact ((keepFirstByKey_sublist key _).trans (List.filter_sublist xs)).cons₂ x
termination_by l => l.length
decreasing_by exact Nat.lt_succ_of_le (List.length_filter_le _ _)

theorem keepFirstByKey_pairwise [DecidableEq β] (key : α → β) :
    ∀ l : List α, (keepFirstByKey key l).Pairwise (fun a b => key a ≠ key b)
  | [] => by simp [keepFirstByKey]
  | x :: xs => by
    rw [keepFirstByKey]
    refine List.pairwise_cons.mpr ⟨?_, keepFirstByKey_pairwise key _⟩
    intro z hz
    have hz' := (keepFirstByKey_sublist key _).subset hz
    have := List.of_mem_filter hz'
    simp only [decide_eq_true_eq] at this
    exact fun hc => this hc.symm
termination_by l => l.length
decreasing_by exact Nat.lt_succ_of_le (List.length_filter_le _ _)

theorem keepFirstByKey_of_pairwise [DecidableEq β] (key : α → β) :
    ∀ l : List α, l.Pairwise (fun a b => key a ≠ key b) → keepFirstByKey key l = l
  | [], _ => by simp [keepFirstByKey]
  | x :: xs, h => by
    rw [keepFirstByKey]
    rcases List.pairwise_cons.mp h with ⟨hx, hxs⟩
    have hfil : xs.filter (fun y => decide (key y ≠ key x)) = xs := by
      apply List.filter_eq_self.mpr
      intro a ha
      simpa using (hx a ha).symm
    rw [hfil, keepFirstByKey_of_pairwise key xs hxs]

theorem read_excel_raw_ok (source : List (List Str)) (h : 2 ≤ source.length) :
    read_excel_raw source = .ok { headers := source.headD [], rows := source.tail } := by
  unfold read_excel_raw
  rw [if_neg, if_neg]
  · omega
  · intro hc
    rw [List.isEmpty_iff] at hc
    subst hc
    simp at h

theorem read_excel_raw_isErr (source : List (List Str)) :
    (∃ e, read_excel_raw source = .error e) ↔ source.length ≤ 1 := by
  unfold read_excel_raw
  split_ifs with h1 h2
  · rw [List.isEmpty_iff] at h1
    subst h1
    simp
  · simp [h2]
  · simp
    omega

theorem headersMismatch_self (h : List Str) : ¬ headersMismatch h h := by
  unfold headersMismatch
  push_neg
  exact ⟨rfl, fun i _ _ => rfl⟩

theorem not_mismatch_len {ref cur : List Str} (h : ¬ headersMismatch ref cur) :
    cur.length = ref.length := by
  unfold headersMismatch at h
  push_neg at h
  exact h.1

theorem firstHeaderDiff_none :
    ∀ (cs rs : List Str) (off : Nat),
    firstHeaderDiff cs rs off = none ↔
      ∀ i < min cs.length rs.length, strTrim (cs.getD i []) = strTrim (rs.getD i [])
  | [], rs, off => by simp [firstHeaderDiff]
  | c :: cs, [], off => by simp [firstHeaderDiff]
  | c :: cs, r :: rs, off => by
    unfold firstHeaderDiff
    by_cases h : strTrim c ≠ strTrim r
    · rw [if_pos h]
      constructor
      · intro hc
        exact absurd hc (by simp)
      · intro hall
        have h0 := hall 0 (by simp [Nat.lt_min])
        exact absurd h0 h
    · push_neg at h
      rw [if_neg (by simpa using h)]
      rw [firstHeaderDiff_none cs rs (off + 1)]
      constructor
      · intro hall i hi
        match i with
        | 0 => exact h
        | n + 1 =>
          have hn : n < min cs.length rs.length := by
            simp only [List.length_cons, Nat.succ_min_succ] at hi
            omega
          exact hall n hn
      · intro hall i hi
        have := hall (i + 1) (by simp only [List.length_cons, Nat.succ_min_succ]; omega)
        exact this

theorem not_mismatch_diff {ref cur : List Str} (h : ¬ headersMismatch ref cur) :
    firstHeaderDiff cur ref 0 = none := by
  rw [firstHeaderDiff_none]
  intro i hi
  unfold headersMismatch at h
  push_neg at h
  exact h.2 i (by omega) (by omega)

theorem firstHeaderDiff_some :
    ∀ (i : Nat) (cs rs : List Str) (off : Nat),
    i < cs.length → i < rs.length →
    (∀ j < i, strTrim (cs.getD j []) = strTrim (rs.getD j [])) →
    strTrim (cs.getD i []) ≠ strTrim (rs.getD i []) →
    firstHeaderDiff cs rs off = some (off + i, cs.getD i [], rs.getD i [])
  | _, [], _, _, h1, _, _, _ => by simp at h1
  | _, _ :: _, [], _, _, h2, _, _ => by simp at h2
  | 0, c :: cs, r :: rs, off, _, _, _, hne => by
    unfold firstHeaderDiff
    have hne' : strTrim c ≠ strTrim r := hne
    rw [if_pos hne']
    simp
  | i + 1, c :: cs, r :: rs, off, h1, h2, hpre, hne => by
    unfold firstHeaderDiff
    have h0 : strTrim c = strTrim r := hpre 0 (Nat.succ_pos i)
    rw [if_neg (by simpa using h0)]
    have hne' : strTrim (cs.getD i []) ≠ strTrim (rs.getD i []) := hne
    have hrec := firstHeaderDiff_some i cs rs (off + 1) (by simpa using h1)
      (by simpa using h2) (fun j hj => hpre (j + 1) (by omega)) hne'
    rw [hrec]
    have harith : off + 1 + i = off + (i + 1) := by omega
    rw [harith]
    rfl

theorem mergeAux_cons_ok (ref : List Str) (g : List (List Str))
    (fs : List (List (List Str))) (idx : Nat) (acc : List (List Str))
    (hg2 : 2 ≤ g.length) (hgm : ¬ headersMismatch ref (g.headD [])) :
    mergeAux ref (g :: fs) idx acc = mergeAux ref fs (idx + 1) (acc ++ g.tail) := by
  conv_lhs => unfold mergeAux
  rw [read_excel_raw_ok g hg2]
  dsimp only
  rw [if_neg (show ¬ _ from fun hc => hc (not_mismatch_len hgm)), not_mismatch_diff hgm]

theorem mergeAux_cons_err_read (ref : List Str) (g : List (List Str))
    (fs : List (List (List Str))) (idx : Nat) (acc : List (List Str))
    (hle : g.length ≤ 1) : ∃ e, mergeAux ref (g :: fs) idx acc = .error e := by
  rcases (read_excel_raw_isErr g).mpr hle with ⟨e, he⟩
  unfold mergeAux
  rw [he]
  exact ⟨.readError e, rfl⟩

theorem mergeAux_cons_countMismatch (ref : List Str) (g : List (List Str))
    (fs : List (List (List Str))) (idx : Nat) (acc : List (List Str))
    (hg2 : 2 ≤ g.length) (hlen : (g.headD []).length ≠ ref.length) :
    mergeAux ref (g :: fs) idx acc
      = .error (.countMismatch idx (g.headD []).length ref.length) := by
  unfold mergeAux
  rw [read_excel_raw_ok g hg2]
  dsimp only
  rw [if_pos hlen]

theorem mergeAux_cons_headerMismatch (ref : List Str) (g : List (List Str))
    (fs : List (List (List Str))) (idx : Nat) (acc : List (List Str))
    (i : Nat) (c r : Str)
    (hg2 : 2 ≤ g.length) (hlen : (g.headD []).length = ref.length)
    (hdiff : firstHeaderDiff (g.headD []) ref 0 = some (i, c, r)) :
    mergeAux ref (g :: fs) idx acc = .error (.headerMismatch idx (i + 1) c r) := by
  unfold mergeAux
  rw [read_excel_raw_ok g hg2]
  dsimp only
  rw [if_neg (show ¬ _ from fun hc => hc hlen), hdiff]

theorem mergeAux_ok (ref : List Str) :
    ∀ (fs : List (List (List Str))) (idx : Nat) (acc : List (List Str)),
    (∀ g ∈ fs, 2 ≤ g.length ∧ ¬ headersMismatch ref (g.headD [])) →
    mergeAux ref fs idx acc = .ok (acc ++ (fs.map List.tail).flatten)
  | [], idx, acc, _ => by simp [mergeAux]
  | g :: fs, idx, acc, hall => by
    rcases hall g (List.mem_cons_self _ _) with ⟨hg2, hgm⟩
    rw [mergeAux_cons_ok ref g fs idx acc hg2 hgm]
    rw [mergeAux_ok ref fs (idx + 1) (acc ++ g.tail)
      (fun g' hg' => hall g' (List.mem_cons_of_mem _ hg'))]
    simp [List.append_assoc]

theorem mergeAux_reaches (ref : List Str) :
    ∀ (j : Nat) (fs : List (List (List Str))) (idx : Nat) (acc : List (List Str)),
    j ≤ fs.length →
    (∀ k < j, 2 ≤ (fs.getD k []).length ∧
      ¬ headersMismatch ref ((fs.getD k []).headD [])) →
    mergeAux ref fs idx acc
      = mergeAux ref (fs.drop j) (idx + j) (acc ++ ((fs.take j).map List.tail).flatten)
  | 0, fs, idx, acc, _, _ => by simp
  | j + 1, fs, idx, acc, hj, hgood => by
    cases fs with
    | nil => simp at hj
    | cons g fs' =>
      rcases hgood 0 (Nat.succ_pos j) with ⟨hg2, hgm⟩
      rw [mergeAux_cons_ok ref g fs' idx acc hg2 hgm]
      rw [mergeAux_reaches ref j fs' (idx + 1) (acc ++ g.tail) (by simpa using hj)
        (fun k hk => by simpa using hgood (k + 1) (by omega))]
      have harith : idx + 1 + j = idx + (j + 1) := by omega
      rw [harith]
      simp [List.take_succ_cons, List.append_assoc]

theorem mergeAux_isErr (ref : List Str) :
    ∀ (fs : List (List (List Str))) (idx : Nat) (acc : List (List Str)),
    (∃ e, mergeAux ref fs idx acc = .error e) ↔
      ∃ g ∈ fs, g.length ≤ 1 ∨ headersMismatch ref (g.headD [])
  | [], idx, acc => by simp [mergeAux]
  | g :: fs, idx, acc => by
    by_cases h1 : g.length ≤ 1
    · constructor
      · intro _
        exact ⟨g, List.mem_cons_self _ _, Or.inl h1⟩
      · intro _
        exact mergeAux_cons_err_read ref g fs idx acc h1
    · push_neg at h1
      by_cases h2 : headersMismatch ref (g.headD [])
      · constructor
        · intro _
          exact ⟨g, List.mem_cons_self _ _, Or.inr h2⟩
        · intro _
          by_cases hlen : (g.headD []).length = ref.length
          · rcases h2 with hc | ⟨i, hi, hic, hne⟩
            · exact absurd hlen hc
            · rcases hfd : firstHeaderDiff (g.headD []) ref 0 with _ | ⟨⟨i', c', r'⟩⟩
              · rw [firstHeaderDiff_none] at hfd
                exact absurd (hfd i (by omega)) hne
              · exact ⟨_, mergeAux_cons_headerMismatch ref g fs idx acc i' c' r' h1 hlen hfd⟩
          · exact ⟨_, mergeAux_cons_countMismatch ref g fs idx acc h1 hlen⟩
      · rw [mergeAux_cons_ok ref g fs idx acc h1 h2]
        rw [mergeAux_isErr ref fs (idx + 1) (acc ++ g.tail)]
        constructor
        · rintro ⟨g', hg', hbad⟩
          exact ⟨g', List.mem_cons_of_mem _ hg', hbad⟩
        · rintro ⟨g', hg', hbad⟩
          rcases List.mem_cons.mp hg' with rfl | hg''
          · rcases hbad with hb | hb
            · omega
            · exact absurd hb h2
          · exact ⟨g', hg'', hbad⟩

theorem merge_excel_files_ok (f : List (List Str)) (fs : List (List (List Str)))
    (h2 : 2 ≤ f.length)
    (hall : ∀ g ∈ fs, 2 ≤ g.length ∧ ¬ headersMismatch (f.headD []) (g.headD [])) :
    merge_excel_files (f :: fs)
      = .ok { headers := f.headD [], rows := f.tail ++ (fs.map List.tail).flatten } := by
  conv_lhs => unfold merge_excel_files
  dsimp only
  rw [read_excel_raw_ok f h2]
  dsimp only
  rw [mergeAux_ok (f.headD []) fs 1 f.tail hall]

theorem merge_isErr (files : List (List (List Str))) :
    (∃ e, merge_excel_files files = .error e) ↔
      files = [] ∨ ∃ f ∈ files, f.length ≤ 1 ∨
        headersMismatch ((files.headD []).headD []) (f.headD []) := by
  cases files with
  | nil => simp [merge_excel_files]
  | cons f fs =>
    by_cases h1 : f.length ≤ 1
    · constructor
      · intro _
        exact Or.inr ⟨f, List.mem_cons_self _ _, Or.inl h1⟩
      · intro _
        rcases (read_excel_raw_isErr f).mpr h1 with ⟨e, he⟩
        refine ⟨.readError e, ?_⟩
        conv_lhs => unfold merge_excel_files
        dsimp only
        rw [he]
    · push_neg at h1
      have h2 : 2 ≤ f.length := h1
      constructor
      · rintro ⟨e, he⟩
        conv_lhs at he => unfold merge_excel_files
        dsimp only at he
        rw [read_excel_raw_ok f h2] at he
        dsimp only at he
        rcases hm : mergeAux (f.headD []) fs 1 f.tail with e' | rows
        · have := (mergeAux_isErr (f.headD []) fs 1 f.tail).mp ⟨e', hm⟩
          rcases this with ⟨g, hg, hbad⟩
          exact Or.inr ⟨g, List.mem_cons_of_mem _ hg, hbad⟩
        · rw [hm] at he
          simp at he
      · rintro (hnil | ⟨g, hg, hbad⟩)
        · exact absurd hnil (by simp)
        · rcases List.mem_cons.mp hg with rfl | hg'
          · rcases hbad with hb | hb
            · omega
            · exact absurd hb (headersMismatch_self _)
          · rcases (mergeAux_isErr (f.headD []) fs 1 f.tail).mpr ⟨g, hg', hbad⟩ with ⟨e', hm⟩
            refine ⟨e', ?_⟩
            conv_lhs => unfold merge_excel_files
            dsimp only
            rw [read_excel_raw_ok f h2]
            dsimp only
            rw [hm]

theorem charToNat_ofNat (n : Nat) (h : n.isValidChar) : (Char.ofNat n).toNat = n := by
  simp only [Char.ofNat, dif_pos h, Char.ofNatAux, Char.toNat]
  rfl

theorem charOfNat_inj {a b : Nat} (ha : a < 256) (hb : b < 256)
    (h : Char.ofNat a = Char.ofNat b) : a = b := by
  have hva : a.isValidChar := Or.inl (by omega)
  have hvb : b.isValidChar := Or.inl (by omega)
  have h2 := congrArg Char.toNat h
  rwa [charToNat_ofNat a hva, charToNat_ofNat b hvb] at h2

theorem colName_inj {i j : Nat} (hi : i < 256) (hj : j < 256)
    (h : colName i = colName j) : i = j := by
  unfold colName at h
  simp only [List.cons.injEq, and_true] at h
  have := charOfNat_inj (by omega) (by omega) h
  omega

theorem columnNames_length (n : Nat) : (columnNames n).length = n := by
  simp [columnNames]

theorem columnNames_nodup {n : Nat} (h : n ≤ 256) : (columnNames n).Nodup := by
  unfold columnNames
  refine List.Nodup.map_on ?_ (List.nodup_range n)
  intro x hx y hy hxy
  rw [List.mem_range] at hx hy
  exact colName_inj (by omega) (by omega) hxy

theorem zip_map_fst : ∀ (names row : List Str),
    (names.zip row).map Prod.fst = names.take row.length
  | [], row => by simp
  | n :: ns, [] => by simp
  | n :: ns, v :: vs => by
    simp only [List.zip_cons_cons, List.map_cons, List.length_cons, List.take_succ_cons]
    rw [zip_map_fst ns vs]

theorem foldl_recInsert_fresh :
    ∀ (ps : List (Str × Str)) (acc : Record),
    (∀ p ∈ ps, acc.any (fun q => decide (q.1 = p.1)) = false) →
    (ps.map Prod.fst).Nodup →
    ps.foldl (fun rec p => recInsert rec p.1 (cleanCell p.2)) acc
      = acc ++ ps.map (fun p => (p.1, cleanCell p.2))
  | [], acc, _, _ => by simp
  | p :: ps, acc, hfresh, hnodup => by
    simp only [List.foldl_cons]
    have hp := hfresh p (List.mem_cons_self _ _)
    have hins : recInsert acc p.1 (cleanCell p.2) = acc ++ [(p.1, cleanCell p.2)] := by
      unfold recInsert
      rw [if_neg (by simp [hp])]
    rw [hins]
    rw [foldl_recInsert_fresh ps (acc ++ [(p.1, cleanCell p.2)]) ?_ ?_]
    · simp
    · intro q hq
      rw [List.any_append]
      have hacc := hfresh q (List.mem_cons_of_mem _ hq)
      have hkey : p.1 ≠ q.1 := by
        intro hc
        have hq1 : q.1 ∈ ps.map Prod.fst := List.mem_map_of_mem Prod.fst hq
        exact (List.nodup_cons.mp hnodup).1 (by rw [hc]; exact hq1)
      simp [hacc, hkey]
    · exact (List.nodup_cons.mp hnodup).2

theorem buildRecord_eq (names row : List Str) (hnodup : names.Nodup) :
    buildRecord names row = (names.zip row).map (fun p => (p.1, cleanCell p.2)) := by
  unfold buildRecord
  rw [foldl_recInsert_fresh (names.zip row) [] (by simp)
    (by rw [zip_map_fst]; exact List.Nodup.sublist (List.take_sublist _ _) hnodup)]
  simp

theorem buildRecord_keys (names row : List Str) (hnodup : names.Nodup) :
    (buildRecord names row).map Prod.fst = names.take row.length := by
  rw [buildRecord_eq names row hnodup, List.map_map]
  have hfn : (Prod.fst ∘ fun p : Str × Str => ((p.1, cleanCell p.2) : Str × Option Str))
      = Prod.fst := rfl
  rw [hfn, zip_map_fst]

theorem recGet_eq_of_mem :
    ∀ (r : Record) (k : Str) (v : Option Str),
    (r.map Prod.fst).Nodup → (k, v) ∈ r → recGet r k = some v
  | [], k, v, _, hmem => absurd hmem (List.not_mem_nil _)
  | q :: rest, k, v, hnodup, hmem => by
    rcases List.mem_cons.mp hmem with rfl | hmem'
    · unfold recGet
      rw [List.find?_cons_of_pos _ (by simp)]
      rfl
    · have hne : q.1 ≠ k := by
        intro hc
        exact (List.nodup_cons.mp hnodup).1
          (hc ▸ List.mem_map_of_mem Prod.fst hmem' |> fun h => by simpa using h)
      unfold recGet
      rw [List.find?_cons_of_neg _ (by simp [hne])]
      exact recGet_eq_of_mem rest k v (List.nodup_cons.mp hnodup).2 hmem'

theorem recGet_eq_none (r : Record) (k : Str) (h : k ∉ r.map Prod.fst) :
    recGet r k = none := by
  unfold recGet
  rw [List.find?_eq_none.mpr]
  · rfl
  · intro x hx
    simp only [decide_eq_true_eq]
    intro hc
    exact h (hc ▸ List.mem_map_of_mem Prod.fst hx)

theorem splitChar_no_sep (sep : Char) :
    ∀ s : Str, sep ∉ s → splitChar sep s = [s]
  | [], _ => rfl
  | c :: rest, h => by
    conv_lhs => unfold splitChar
    rw [if_neg (fun hc : c = sep => h (by rw [← hc]; exact List.mem_cons_self c rest))]
    rw [splitChar_no_sep sep rest (fun hm => h (List.mem_cons_of_mem c hm))]

theorem splitChar_append (sep : Char) :
    ∀ (b d : Str), sep ∉ b → splitChar sep (b ++ sep :: d) = b :: splitChar sep d
  | [], d, _ => by
    simp only [List.nil_append]
    conv_lhs => unfold splitChar
    rw [if_pos rfl]
  | c :: b, d, h => by
    have hc : c ≠ sep := fun hcs => h (by rw [← hcs]; exact List.mem_cons_self c b)
    simp only [List.cons_append]
    conv_lhs => unfold splitChar
    rw [if_neg hc]
    rw [splitChar_append sep b d (fun hm => h (List.mem_cons_of_mem c hm))]

theorem isErr_iff (x : Except MergeError RawExcelData) :
    isErr x = true ↔ ∃ e, x = .error e := by
  cases x <;> simp [isErr]

/-!
Claim theorems.
-/

theorem from_severity_by_keywords (s : Str) :
    RiskLevel.from_severity s =
      (if highKeywords.any (containsStr s) then .High
       else if mediumKeywords.any (containsStr s) then .Medium
       else if lowKeywords.any (containsStr s) then .Low
       else .Unknown) := by
  unfold RiskLevel.from_severity highKeywords mediumKeywords lowKeywords
  simp only [List.any_cons, List.any_nil, Bool.or_false]

/-- Claim C6: the severity classifier is a total function that checks the
High keyword set, then the Medium set, then the Low set by substring
match, returns the first matching level and Unknown when none matches; a
label containing both a High and a Low keyword classifies as High; the
priorities are High 1, Medium 2, Low 3, and Unknown's sentinel 999
exceeds every other priority, so Unknown groups sort last. -/
theorem claim6_severity_classifier (s : Str) :
    (highKeywords.any (containsStr s) = true → RiskLevel.from_severity s = .High)
    ∧ (highKeywords.any (containsStr s) = false →
        mediumKeywords.any (containsStr s) = true →
        RiskLevel.from_severity s = .Medium)
    ∧ (highKeywords.any (containsStr s) = false →
        mediumKeywords.any (containsStr s) = false →
        lowKeywords.any (containsStr s) = true →
        RiskLevel.from_severity s = .Low)
    ∧ (highKeywords.any (containsStr s) = false →
        mediumKeywords.any (containsStr s) = false →
        lowKeywords.any (containsStr s) = false →
        RiskLevel.from_severity s = .Unknown)
    ∧ (highKeywords.any (containsStr s) = true →
        lowKeywords.any (containsStr s) = true →
        RiskLevel.from_severity s = .High)
    ∧ RiskLevel.High.priority = 1 ∧ RiskLevel.Medium.priority = 2
    ∧ RiskLevel.Low.priority = 3
    ∧ (∀ l : RiskLevel, l ≠ .Unknown → l.priority < RiskLevel.Unknown.priority) := by
  refine ⟨?_, ?_, ?_, ?_, ?_, rfl, rfl, rfl, ?_⟩
  · intro h
    rw [from_severity_by_keywords]
    simp [h]
  · intro h1 h2
    rw [from_severity_by_keywords]
    simp [h1, h2]
  · intro h1 h2 h3
    rw [from_severity_by_keywords]
    simp [h1, h2, h3]
  · intro h1 h2 h3
    rw [from_severity_by_keywords]
    simp [h1, h2, h3]
  · intro h1 _
    rw [from_severity_by_keywords]
    simp [h1]
  · intro l hl
    cases l <;> simp_all [RiskLevel.priority]

/-- Witness for C6 at the label 高危低危, which contains both a High and a
Low keyword and classifies as High. -/
theorem claim6_witness :
    highKeywords.any (containsStr ("高危低危".toList)) = true
    ∧ lowKeywords.any (containsStr ("高危低危".toList)) = true
    ∧ RiskLevel.from_severity ("高危低危".toList) = .High :=
  ⟨by decide, by decide,
   (claim6_severity_classifier ("高危低危".toList)).2.2.2.2.1 (by decide) (by decide)⟩

/-- Claim C3: deduplication is idempotent — applying
`deduplicate_records` to its own output with the same key columns
returns that output unchanged. -/
theorem claim3_dedup_idempotent (records : List Record) (check_columns : List Str) :
    deduplicate_records (deduplicate_records records check_columns) check_columns
      = deduplicate_records records check_columns := by
  rw [deduplicate_eq_keepFirst, deduplicate_eq_keepFirst]
  exact keepFirstByKey_of_pairwise _ _ (keepFirstByKey_pairwise _ records)

/-- Claim C4: with the first `min 7 n` synthetic column names as key
columns, `deduplicate_records` equals the keep-first-per-key filter for
the composite key that joins the key columns' cell texts (absent mapped
to the empty string) with a pipe in column order, and its output is a
sublist of the input, so retained records keep their relative order. -/
theorem claim4_dedup_first_seven (records : List Record) (n : Nat) :
    deduplicate_records records
        ((columnNames n).take (min 7 (columnNames n).length))
      = keepFirstByKey
          (fun r => joinSep '|'
            (((columnNames n).take (min 7 (columnNames n).length)).map (getCell r)))
          records
    ∧ List.Sublist
        (deduplicate_records records
          ((columnNames n).take (min 7 (columnNames n).length)))
        records := by
  constructor
  · rw [deduplicate_eq_keepFirst]
    rfl
  · exact dedupAux_sublist _ _ _

/-- Claim C5: the `ordered_groups` emitted by `create_structured_result`
are sorted by the severity priority of the group key's severity part
ascending, with ties on priority broken by record count descending. -/
theorem claim5_groups_sorted (grouped_data : List (Str × List Record))
    (total_records : Nat) :
    ((create_structured_result grouped_data total_records).grouped_data).Pairwise
      orderedBefore := by
  unfold create_structured_result
  dsimp only
  rw [List.pairwise_map]
  have hsorted := pairwise_sortByOrd cmpGroups_swap cmpGroups_trans_le
    (grouped_data.map structureGroup)
  refine List.Pairwise.imp_of_mem ?_ hsorted
  intro a b ha hb hab
  rcases List.mem_map.mp ((sortByOrd_perm cmpGroups _).subset ha) with ⟨p, _, rfl⟩
  rcases List.mem_map.mp ((sortByOrd_perm cmpGroups _).subset hb) with ⟨q, _, rfl⟩
  rw [Ne, cmpGroups_eq_gt] at hab
  push_neg at hab
  rcases hab with ⟨h1, h2⟩
  have hp1 : keyPriority (structureGroup p).1 = (structureGroup p).2.2 := rfl
  have hq1 : keyPriority (structureGroup q).1 = (structureGroup q).2.2 := rfl
  unfold orderedBefore
  dsimp only
  by_cases heq : (structureGroup p).2.2 = (structureGroup q).2.2
  · right
    refine ⟨by rw [hp1, hq1, heq], ?_⟩
    have := h2 heq
    omega
  · left
    rw [hp1, hq1]
    omega

/-- Claim C2: for every merged row table and every order in which
`create_structured_result` visits the grouping map, the result of
`process_raw_data` has record counts summing to `total_records` and
group count equal to `total_groups`. -/
theorem claim2_totals_invariant (rows : List (List Str))
    (iter : List (Str × List Record)) (hiter : iter.Perm (groupPairsOf rows)) :
    ((process_raw_data rows iter).grouped_data.map (fun p => p.2.record_count)).sum
        = (process_raw_data rows iter).total_records
    ∧ (process_raw_data rows iter).grouped_data.length
        = (process_raw_data rows iter).total_groups := by
  constructor
  · unfold process_raw_data create_structured_result
    dsimp only
    rw [List.map_map]
    have h1 : ((sortByOrd cmpGroups (iter.map structureGroup)).map
          ((fun p : Str × GroupInfo => p.2.record_count) ∘
            fun t : Str × GroupInfo × Int => (t.1, t.2.1))).sum
        = ((iter.map structureGroup).map
          ((fun p : Str × GroupInfo => p.2.record_count) ∘
            fun t : Str × GroupInfo × Int => (t.1, t.2.1))).sum :=
      ((sortByOrd_perm cmpGroups _).map _).sum_eq
    rw [h1, List.map_map]
    have h2 : (((fun p : Str × GroupInfo => p.2.record_count) ∘
          fun t : Str × GroupInfo × Int => (t.1, t.2.1)) ∘ structureGroup)
        = fun p : Str × List Record => p.2.length := rfl
    rw [h2]
    have h3 : (iter.map (fun p : Str × List Record => p.2.length)).sum
        = ((groupPairsOf rows).map (fun p : Str × List Record => p.2.length)).sum :=
      (hiter.map _).sum_eq
    rw [h3]
    unfold groupPairsOf
    rw [sum_group_data]
  · rfl

/-- Witness for C2 on the two-row table `rowsTied`, with the map visited
in first-encounter order. -/
theorem claim2_witness :
    ((process_raw_data rowsTied (groupPairsOf rowsTied)).grouped_data.map
        (fun p => p.2.record_count)).sum
      = (process_raw_data rowsTied (groupPairsOf rowsTied)).total_records
    ∧ (process_raw_data rowsTied (groupPairsOf rowsTied)).grouped_data.length
      = (process_raw_data rowsTied (groupPairsOf rowsTied)).total_groups :=
  claim2_totals_invariant rowsTied (groupPairsOf rowsTied) (List.Perm.refl _)

/-- Counterexample to claim C1: on `rowsTied` the grouping map holds two
groups that tie on priority and record count; visiting the map in
reversed order — a legitimate iteration order of Rust's run-randomized
`HashMap` — yields a different `ordered_groups` sequence, so the
pipeline is not deterministic across runs and the tie order need not
match first-encounter order. -/
theorem claim1_counterexample :
    ((groupPairsOf rowsTied).reverse).Perm (groupPairsOf rowsTied)
    ∧ ((groupPairsOf rowsTied).map (fun p => (keyPriority p.1, p.2.length)))
        = [(1, 1), (1, 1)]
    ∧ process_raw_data rowsTied ((groupPairsOf rowsTied).reverse)
        ≠ process_raw_data rowsTied (groupPairsOf rowsTied) := by
  refine ⟨by decide, by decide, by decide⟩

/-- Claim C1 (amended): the pipeline is deterministic up to the ordering
of groups with equal `(priority, record_count)`: for any two iteration
orders of the grouping map, the two runs produce permutations of the
same `ordered_groups` (both sorted per C5) with identical totals; the
tie-break order follows the hash map's unspecified iteration order, not
first-encounter order. -/
theorem claim1_amended_determinism (rows : List (List Str))
    (iter₁ iter₂ : List (Str × List Record))
    (h₁ : iter₁.Perm (groupPairsOf rows)) (h₂ : iter₂.Perm (groupPairsOf rows)) :
    ((process_raw_data rows iter₁).grouped_data).Perm
        ((process_raw_data rows iter₂).grouped_data)
    ∧ (process_raw_data rows iter₁).total_records
        = (process_raw_data rows iter₂).total_records
    ∧ (process_raw_data rows iter₁).total_groups
        = (process_raw_data rows iter₂).total_groups := by
  have hp : iter₁.Perm iter₂ := h₁.trans h₂.symm
  have hgd : ((process_raw_data rows iter₁).grouped_data).Perm
      ((process_raw_data rows iter₂).grouped_data) := by
    unfold process_raw_data create_structured_result
    dsimp only
    refine List.Perm.map _ ?_
    exact (sortByOrd_perm _ _).trans ((hp.map _).trans (sortByOrd_perm _ _).symm)
  exact ⟨hgd, rfl, hgd.length_eq⟩

/-- Witness for the amended C1 on `rowsTied` with the first-encounter
order and its reverse as the two iteration orders. -/
theorem claim1_amended_witness :
    ((process_raw_data rowsTied (groupPairsOf rowsTied)).grouped_data).Perm
        ((process_raw_data rowsTied ((groupPairsOf rowsTied).reverse)).grouped_data)
    ∧ (process_raw_data rowsTied (groupPairsOf rowsTied)).total_records
        = (process_raw_data rowsTied ((groupPairsOf rowsTied).reverse)).total_records
    ∧ (process_raw_data rowsTied (groupPairsOf rowsTied)).total_groups
        = (process_raw_data rowsTied ((groupPairsOf rowsTied).reverse)).total_groups :=
  claim1_amended_determinism rowsTied (groupPairsOf rowsTied)
    ((groupPairsOf rowsTied).reverse) (List.Perm.refl _) (by decide)

/-- Counterexample to claim C7: two sources with two rows each (so none
is empty or header-only) and a non-empty source list still make
`merge_excel_files` fail, because their headers differ — so the claimed
"exactly when" characterization omits header mismatches. -/
theorem claim7_counterexample :
    isErr (merge_excel_files
      [[["A".toList], ["x".toList]], [["B".toList], ["y".toList]]]) = true
    ∧ ([[["A".toList], ["x".toList]], [["B".toList], ["y".toList]]]
        : List (List (List Str))) ≠ []
    ∧ ([[["A".toList], ["x".toList]], [["B".toList], ["y".toList]]].all
        (fun f => decide (2 ≤ f.length))) = true := by
  refine ⟨by decide, by decide, by decide⟩

/-- Claim C7 (amended): `merge_excel_files` fails with a validation
error exactly when the source list is empty, some source yields zero
rows or only a header row, or some source's headers disagree with the
first source's headers in count or in some trimmed entry; the
empty-list case is rejected immediately, before any source content is
examined. -/
theorem claim7_amended_validation (files : List (List (List Str))) :
    (isErr (merge_excel_files files) = true ↔
      files = [] ∨ ∃ f ∈ files, f.length ≤ 1 ∨
        headersMismatch ((files.headD []).headD []) (f.headD []))
    ∧ merge_excel_files [] = .error .noFiles := by
  constructor
  · rw [isErr_iff]
    exact merge_isErr files
  · rfl

/-- Witness for the amended C7: the empty source list is rejected. -/
theorem claim7_witness : isErr (merge_excel_files []) = true :=
  (claim7_amended_validation []).1.mpr (Or.inl rfl)

/-- Counterexample to claim C8: when the header counts differ, the
error is a count-mismatch error naming the offending source and the two
header counts, and carries no column index and no pair of conflicting
header values, contrary to the claim's description of the error payload
for that case. -/
theorem claim8_counterexample :
    merge_excel_files [[["A".toList, "B".toList], ["x".toList, "y".toList]],
        [["A".toList], ["z".toList]]]
      = .error (.countMismatch 1 1 2)
    ∧ errCarriesColumnDetail (merge_excel_files
        [[["A".toList, "B".toList], ["x".toList, "y".toList]],
          [["A".toList], ["z".toList]]]) = false := by
  refine ⟨by decide, by decide⟩

/-- Claim C8 (amended): with every source readable (at least a header
row and one data row), merging takes the first source's headers as the
reference; if all later sources' headers agree with it (in count and in
every trimmed entry) the merge returns the reference headers with all
sources' data rows concatenated in source order then in-source row
order; the first offending source fails the merge: with a
count-mismatch error naming that source and both header counts when the
counts differ, and with a header-mismatch error naming that source, the
1-based index of the first differing column, and both conflicting
header values when a trimmed header text differs. -/
theorem claim8_amended_header_validation (f : List (List Str))
    (fs : List (List (List Str))) (hall : ∀ g ∈ f :: fs, 2 ≤ g.length) :
    ((∀ g ∈ fs, ¬ headersMismatch (f.headD []) (g.headD [])) →
      merge_excel_files (f :: fs)
        = .ok { headers := f.headD [], rows := f.tail ++ (fs.map List.tail).flatten })
    ∧ (∀ j, j < fs.length →
        (∀ k, k < j → ¬ headersMismatch (f.headD []) ((fs.getD k []).headD [])) →
        ((fs.getD j []).headD []).length ≠ (f.headD []).length →
        merge_excel_files (f :: fs)
          = .error (.countMismatch (j + 1)
              ((fs.getD j []).headD []).length (f.headD []).length))
    ∧ (∀ j i, j < fs.length →
        (∀ k, k < j → ¬ headersMismatch (f.headD []) ((fs.getD k []).headD [])) →
        ((fs.getD j []).headD []).length = (f.headD []).length →
        i < (f.headD []).length →
        (∀ m, m < i →
          strTrim (((fs.getD j []).headD []).getD m [])
            = strTrim ((f.headD []).getD m [])) →
        strTrim (((fs.getD j []).headD []).getD i [])
          ≠ strTrim ((f.headD []).getD i []) →
        merge_excel_files (f :: fs)
          = .error (.headerMismatch (j + 1) (i + 1)
              (((fs.getD j []).headD []).getD i []) ((f.headD []).getD i []))) := by
  have hf2 : 2 ≤ f.length := hall f (List.mem_cons_self _ _)
  refine ⟨?_, ?_, ?_⟩
  · intro hok
    exact merge_excel_files_ok f fs hf2
      (fun g hg => ⟨hall g (List.mem_cons_of_mem _ hg), hok g hg⟩)
  · intro j hj hpre hcnt
    have hmem : fs.getD j [] ∈ fs := by
      rw [List.getD_eq_getElem _ _ hj]
      exact List.getElem_mem hj
    conv_lhs => unfold merge_excel_files
    dsimp only
    rw [read_excel_raw_ok f hf2]
    dsimp only
    rw [mergeAux_reaches (f.headD []) j fs 1 f.tail (by omega) ?goodpre]
    case goodpre =>
      intro k hk
      have hkmem : fs.getD k [] ∈ fs := by
        rw [List.getD_eq_getElem _ _ (by omega)]
        exact List.getElem_mem (by omega)
      exact ⟨hall _ (List.mem_cons_of_mem _ hkmem), hpre k hk⟩
    rw [List.drop_eq_getElem_cons hj, ← List.getD_eq_getElem fs [] hj]
    rw [mergeAux_cons_countMismatch (f.headD []) (fs.getD j []) _ _ _
      (hall _ (List.mem_cons_of_mem _ hmem)) hcnt]
    have harith : 1 + j = j + 1 := by omega
    rw [harith]
  · intro j i hj hpre hcnt hi hprecol hne
    have hmem : fs.getD j [] ∈ fs := by
      rw [List.getD_eq_getElem _ _ hj]
      exact List.getElem_mem hj
    have hdiff : firstHeaderDiff ((fs.getD j []).headD []) (f.headD []) 0
        = some (0 + i, ((fs.getD j []).headD []).getD i [], (f.headD []).getD i []) :=
      firstHeaderDiff_some i _ _ 0 (by omega) hi hprecol hne
    conv_lhs => unfold merge_excel_files
    dsimp only
    rw [read_excel_raw_ok f hf2]
    dsimp only
    rw [mergeAux_reaches (f.headD []) j fs 1 f.tail (by omega) ?goodpre]
    case goodpre =>
      intro k hk
      have hkmem : fs.getD k [] ∈ fs := by
        rw [List.getD_eq_getElem _ _ (by omega)]
        exact List.getElem_mem (by omega)
      exact ⟨hall _ (List.mem_cons_of_mem _ hkmem), hpre k hk⟩
    rw [List.drop_eq_getElem_cons hj, ← List.getD_eq_getElem fs [] hj]
    rw [mergeAux_cons_headerMismatch (f.headD []) (fs.getD j []) _ _ _ (0 + i) _ _
      (hall _ (List.mem_cons_of_mem _ hmem)) hcnt hdiff]
    have harith : 1 + j = j + 1 := by omega
    have harith2 : 0 + i = i := by omega
    rw [harith, harith2]

/-- Witness for the amended C8, matching the spec's scenario: headers
`A, B` against `A, X` fail with a header-mismatch error naming source 1,
1-based column 2, and the values `X` and `B`. -/
theorem claim8_witness :
    merge_excel_files [[["A".toList, "B".toList], ["x".toList, "y".toList]],
        [["A".toList, "X".toList], ["z".toList, "w".toList]]]
      = .error (.headerMismatch 1 2 ("X".toList) ("B".toList)) :=
  (claim8_amended_header_validation [["A".toList, "B".toList], ["x".toList, "y".toList]]
      [[["A".toList, "X".toList], ["z".toList, "w".toList]]] (by decide)).2.2 0 1
    (by decide) (fun k hk => absurd hk (by omega)) (by decide) (by decide)
    (fun m hm => by have hm0 : m = 0 := Nat.lt_one_iff.mp hm; subst hm0; decide) (by decide)

/-- Claim C9: the record normalizer is total over all row shapes — it
returns one record per row whatever the row lengths are; the batch
column count comes from the first row; each covered cell is trimmed and
stored, with empty-after-trim cells stored as absent; a row's cells at
positions past the batch column count are skipped, and positions a row
does not cover are simply missing from its record (the record holds
exactly `min (batch column count) (row length)` bindings). -/
theorem claim9_normalizer_total (rows : List (List Str)) (k i : Nat)
    (hwide : batchColumnCount rows ≤ 256) (hk : k < rows.length) :
    (normalizeRecords rows).length = rows.length
    ∧ (i < batchColumnCount rows → i < (rows.getD k []).length →
        recGet ((normalizeRecords rows).getD k []) (colName i)
          = some (cleanCell ((rows.getD k []).getD i [])))
    ∧ (i < batchColumnCount rows → (rows.getD k []).length ≤ i →
        recGet ((normalizeRecords rows).getD k []) (colName i) = none)
    ∧ ((normalizeRecords rows).getD k []).length
        = min (batchColumnCount rows) (rows.getD k []).length := by
  have hnodup : (columnNames (batchColumnCount rows)).Nodup := columnNames_nodup hwide
  have hlen_names : (columnNames (batchColumnCount rows)).length = batchColumnCount rows :=
    columnNames_length _
  have hrk : (normalizeRecords rows).getD k []
      = buildRecord (columnNames (batchColumnCount rows)) (rows.getD k []) := by
    unfold normalizeRecords
    rw [List.getD_eq_getElem _ _ (by simpa using hk), List.getElem_map,
      List.getD_eq_getElem rows [] hk]
  refine ⟨by simp [normalizeRecords], ?_, ?_, ?_⟩
  · intro hin hrow
    rw [hrk]
    apply recGet_eq_of_mem
    · rw [buildRecord_keys _ _ hnodup]
      exact List.Nodup.sublist (List.take_sublist _ _) hnodup
    · rw [buildRecord_eq _ _ hnodup]
      have hmin : i < ((columnNames (batchColumnCount rows)).zip (rows.getD k [])).length := by
        rw [List.length_zip, hlen_names]
        omega
      have hmb : i < (((columnNames (batchColumnCount rows)).zip (rows.getD k [])).map
          (fun p => ((p.1, cleanCell p.2) : Str × Option Str))).length := by
        simpa using hmin
      have hnl : i < (columnNames (batchColumnCount rows)).length := by omega
      have hgi : (((columnNames (batchColumnCount rows)).zip (rows.getD k [])).map
            (fun p => ((p.1, cleanCell p.2) : Str × Option Str)))[i]
          = (colName i, cleanCell ((rows.getD k []).getD i [])) := by
        rw [List.getElem_map, List.getElem_zip]
        have hni : (columnNames (batchColumnCount rows))[i] = colName i := by
          unfold columnNames
          rw [List.getElem_map, List.getElem_range]
        rw [List.getD_eq_getElem (rows.getD k []) [] hrow]
        rw [hni]
      exact hgi ▸ List.getElem_mem hmb
  · intro hin hge
    rw [hrk]
    apply recGet_eq_none
    rw [buildRecord_keys _ _ hnodup]
    intro hc
    unfold columnNames at hc
    rw [← List.map_take, List.take_range] at hc
    rcases List.mem_map.mp hc with ⟨j, hjmem, hj⟩
    rw [List.mem_range] at hjmem
    have hji : j = i := colName_inj (by omega) (by omega) hj
    omega
  · rw [hrk, buildRecord_eq _ _ hnodup]
    simp [List.length_zip, hlen_names]

/-- Witness for C9 on `rowsTied` at row 0, column 1. -/
theorem claim9_witness :
    recGet ((normalizeRecords rowsTied).getD 0 []) (colName 1)
      = some (cleanCell ((rowsTied.getD 0 []).getD 1 [])) :=
  (claim9_normalizer_total rowsTied 0 1 (by decide) (by decide)).2.1
    (by decide) (by decide)

/-- Counterexample to claim C10: a record whose B value is pipe-free
but whose D value `a|b` contains a pipe makes the emitted group's
`d_column` equal to `a`, the D value truncated at its first pipe — so
the claimed round trip does not hold under the claim's hypothesis that
only B values are pipe-free. -/
theorem claim10_counterexample :
    '|' ∉ getCell recPipeD ("B".toList)
    ∧ ((create_structured_result
          (group_data_by_columns [recPipeD] ("B".toList) ("D".toList)) 1).grouped_data.map
        (fun p => p.2.d_column)) = [("a".toList)]
    ∧ getCell recPipeD ("D".toList) = ("a|b".toList)
    ∧ (("a".toList) : Str) ≠ ("a|b".toList) := by
  refine ⟨by decide, by decide, by decide, by decide⟩

/-- Claim C10 (amended): when no record's B value and no record's D
value contains the pipe character, every group emitted by
`create_structured_result` (under any iteration order of the grouping
map built by `group_data_by_columns` on columns B and D) recovers, by
splitting the composite key on the pipe, a `b_column` equal to its
records' shared B value and a `d_column` equal to their shared D value,
so the risk classification is computed from exactly the records'
severity value; a pipe inside a B or a D value breaks the round trip. -/
theorem claim10_amended_roundtrip (records : List Record)
    (iter : List (Str × List Record)) (total : Nat)
    (hiter : iter.Perm (group_data_by_columns records ("B".toList) ("D".toList)))
    (hB : ∀ r ∈ records, '|' ∉ getCell r ("B".toList))
    (hD : ∀ r ∈ records, '|' ∉ getCell r ("D".toList)) :
    ∀ p ∈ (create_structured_result iter total).grouped_data,
      ∀ er ∈ p.2.records,
        p.2.b_column = getCell er.data ("B".toList)
        ∧ p.2.d_column = getCell er.data ("D".toList) := by
  intro p hp er her
  unfold create_structured_result at hp
  dsimp only at hp
  rcases List.mem_map.mp hp with ⟨t, ht, rfl⟩
  rcases List.mem_map.mp ((sortByOrd_perm cmpGroups _).subset ht) with ⟨q, hq, rfl⟩
  have hq' : q ∈ group_data_by_columns records ("B".toList) ("D".toList) :=
    hiter.subset hq
  have her' : er.data ∈ q.2 := by
    have hmem : er ∈ q.2.map (fun data => ({ data := data } : ExcelRecord)) := her
    rcases List.mem_map.mp hmem with ⟨d, hd, rfl⟩
    exact hd
  rcases group_data_inv records _ _ q hq' er.data her' with ⟨hkey, hmem⟩
  have hBr := hB er.data hmem
  have hDr := hD er.data hmem
  constructor
  · show (splitChar '|' q.1).getD 0 [] = _
    rw [hkey]
    unfold groupKeyOf
    rw [splitChar_append '|' _ _ hBr]
    rfl
  · show (splitChar '|' q.1).getD 1 [] = _
    rw [hkey]
    unfold groupKeyOf
    rw [splitChar_append '|' _ _ hBr, splitChar_no_sep '|' _ hDr]
    rfl

/-- Witness for the amended C10 on the pipe-free record `recBD`: the
single emitted group's columns match the record's B and D values. -/
theorem claim10_witness :
    groupBD.2.b_column = getCell recBD ("B".toList)
    ∧ groupBD.2.d_column = getCell recBD ("D".toList) :=
  claim10_amended_roundtrip [recBD]
    (group_data_by_columns [recBD] ("B".toList) ("D".toList)) 1
    (List.Perm.refl _) (by decide) (by decide) groupBD (by decide)
    { data := recBD } (by decide)
